import Mathlib

/-!
Verification of the WebSocket chat repository (src/main.py) against its
natural-language specification.

The development shallowly embeds the Python source: byte strings become
`List Nat` (each element a byte value), pure functions become Lean
functions, and the handful of stateful operations (the client registry,
broadcast fan-out, connection close) become explicit state-passing
functions.  Wall-clock time, which the source consults when building a
masking key, is threaded through as an explicit `nowMs` argument.
-/

namespace WS

/-! ## Byte-level helpers (struct.pack / struct.unpack, big-endian) -/

/-- Bytes of `struct.pack(">H", n)`: 16-bit big-endian. -/
def pack16 (n : Nat) : List Nat := [n / 2 ^ 8 % 256, n % 256]

/-- Bytes of `struct.pack(">I", n)`: 32-bit big-endian. -/
def pack32 (n : Nat) : List Nat :=
  [n / 2 ^ 24 % 256, n / 2 ^ 16 % 256, n / 2 ^ 8 % 256, n % 256]

/-- Bytes of `struct.pack(">Q", n)`: 64-bit big-endian. -/
def pack64 (n : Nat) : List Nat :=
  [n / 2 ^ 56 % 256, n / 2 ^ 48 % 256, n / 2 ^ 40 % 256, n / 2 ^ 32 % 256,
   n / 2 ^ 24 % 256, n / 2 ^ 16 % 256, n / 2 ^ 8 % 256, n % 256]

/-- Value of `struct.unpack(">...", bs)` read big-endian from a byte list. -/
def unpackBE (bs : List Nat) : Nat := bs.foldl (fun a b => a * 256 + b) 0

/-- ASCII bytes of a Lean string literal; models Python `str.encode("utf-8")`
for the ASCII strings this program exchanges. -/
def asciiBytes (s : String) : List Nat := s.toList.map Char.toNat

/-! ## Frame codec: `WebSocketFrame` (src/main.py lines 15-90) -/

def OPCODE_CONT : Nat := 0x0
def OPCODE_TEXT : Nat := 0x1
def OPCODE_BINARY : Nat := 0x2
def OPCODE_CLOSE : Nat := 0x8
def OPCODE_PING : Nat := 0x9
def OPCODE_PONG : Nat := 0xA

/-- The XOR masking loop of `create_frame` / `parse_frame`: byte `i` of the
payload is XORed with byte `i % 4` of the masking key.  Masking and
unmasking are the same operation. -/
def maskPayload (key : List Nat) : List Nat → Nat → List Nat
  | [], _ => []
  | b :: rest, i => (b ^^^ key.getD (i % 4) 0) :: maskPayload key rest (i + 1)

/-- The masking key the source builds:
`struct.pack(">I", int(time.time() * 1000) % 0xFFFFFFFF)` (line 47),
with the current wall-clock time in milliseconds passed explicitly. -/
def maskingKeyFromTime (nowMs : Nat) : List Nat := pack32 (nowMs % 0xFFFFFFFF)

/-- Frame layout produced by `create_frame` once the masking key is fixed:
byte0 = `0x80 | opcode`, the length field with the MASK bit always set,
the 4-byte key, then the masked payload. -/
def frameWithKey (payload : List Nat) (opcode : Nat) (maskingKey : List Nat) :
    List Nat :=
  let lenBytes :=
    if payload.length ≤ 125 then [0x80 ||| payload.length]
    else if payload.length ≤ 65535 then (0x80 ||| 126) :: pack16 payload.length
    else (0x80 ||| 127) :: pack64 payload.length
  ((0x80 ||| opcode) :: lenBytes) ++ maskingKey ++ maskPayload maskingKey payload 0

set_option linter.unusedVariables false in
/-- `WebSocketFrame.create_frame(payload, opcode, mask)` (lines 26-54).
The `mask` parameter is accepted and ignored, exactly as in the source:
every frame is masked, with a key derived from the current time. -/
def create_frame (payload : List Nat) (opcode : Nat) (mask : Bool)
    (nowMs : Nat) : List Nat :=
  frameWithKey payload opcode (maskingKeyFromTime nowMs)

/-- Result of `parse_frame`: the source returns the tuple
`(None, None, 0, False, 0)` for an incomplete buffer and
`(opcode, payload, payload_len, fin, frame_len)` for a parsed frame. -/
inductive ParseResult where
  | incomplete : ParseResult
  | frame (opcode : Nat) (payload : List Nat) (payloadLen : Nat)
      (fin : Bool) (frameLen : Nat) : ParseResult
deriving DecidableEq

/-- Header-reading portion of `parse_frame` (lines 59-81): returns
`(header_size, payload_len)` — with the masking key's 4 bytes already
counted into `header_size` when the MASK bit is set — or `none` when the
buffer is too short to hold the declared length field. -/
def declHeader : List Nat → Option (Nat × Nat)
  | _ :: b2 :: rest =>
    if b2 &&& 0x7F = 126 then
      if rest.length < 2 then none
      else some (4 + (if b2 &&& 0x80 ≠ 0 then 4 else 0), unpackBE (rest.take 2))
    else if b2 &&& 0x7F = 127 then
      if rest.length < 8 then none
      else some (10 + (if b2 &&& 0x80 ≠ 0 then 4 else 0), unpackBE (rest.take 8))
    else some (2 + (if b2 &&& 0x80 ≠ 0 then 4 else 0), b2 &&& 0x7F)
  | _ => none

/-- `WebSocketFrame.parse_frame(data)` (lines 56-90): read the header, and
if the buffer holds the full declared payload, slice out the masking key
and payload and unmask; otherwise report an incomplete frame. -/
def parse_frame (data : List Nat) : ParseResult :=
  match data, declHeader data with
  | b1 :: b2 :: _, some (hs, plen) =>
    if data.length < hs + plen then .incomplete
    else
      let key := (data.drop (hs - 4)).take 4
      let raw := (data.drop hs).take plen
      let payload := if b2 &&& 0x80 ≠ 0 then maskPayload key raw 0 else raw
      .frame (b1 &&& 0x0F) payload plen (decide (b1 &&& 0x80 ≠ 0)) (hs + plen)
  | _, _ => .incomplete

/-! ## Basic lemmas about the byte helpers -/

theorem pack16_length (n : Nat) : (pack16 n).length = 2 := rfl

theorem pack32_length (n : Nat) : (pack32 n).length = 4 := rfl

theorem pack64_length (n : Nat) : (pack64 n).length = 8 := rfl

theorem maskingKeyFromTime_length (ms : Nat) :
    (maskingKeyFromTime ms).length = 4 := rfl

theorem unpackBE_pack16 (n : Nat) (h : n ≤ 65535) : unpackBE (pack16 n) = n := by
  simp only [unpackBE, pack16, List.foldl_cons, List.foldl_nil]
  omega

theorem unpackBE_pack64 (n : Nat) (h : n < 2 ^ 64) : unpackBE (pack64 n) = n := by
  simp only [unpackBE, pack64, List.foldl_cons, List.foldl_nil]
  omega

theorem maskPayload_length (key l : List Nat) (i : Nat) :
    (maskPayload key l i).length = l.length := by
  induction l generalizing i with
  | nil => rfl
  | cons b rest ih => simp [maskPayload, ih]

/-- Masking twice with the same key is the identity. -/
theorem maskPayload_involutive (key l : List Nat) (i : Nat) :
    maskPayload key (maskPayload key l i) i = l := by
  induction l generalizing i with
  | nil => rfl
  | cons b rest ih =>
    simp only [maskPayload, ih]
    rw [Nat.xor_assoc, Nat.xor_self, Nat.xor_zero]

/-! ## Bit-twiddling facts, proved by bounded enumeration -/

theorem or128_and127 : ∀ n, n < 128 → (128 ||| n) &&& 127 = n := by decide

theorem or128_and128 : ∀ n, n < 128 → (128 ||| n) &&& 128 = 128 := by decide

theorem or128_and15 : ∀ n, n < 16 → (128 ||| n) &&& 15 = n := by decide

/-! ## Unfolding lemmas for `parse_frame` -/

theorem parse_frame_cons (b1 b2 : Nat) (rest : List Nat) (hs plen : Nat)
    (h : declHeader (b1 :: b2 :: rest) = some (hs, plen)) :
    parse_frame (b1 :: b2 :: rest) =
      (if (b1 :: b2 :: rest).length < hs + plen then ParseResult.incomplete
       else
         ParseResult.frame (b1 &&& 0x0F)
           (if b2 &&& 0x80 ≠ 0 then
              maskPayload (((b1 :: b2 :: rest).drop (hs - 4)).take 4)
                (((b1 :: b2 :: rest).drop hs).take plen) 0
            else ((b1 :: b2 :: rest).drop hs).take plen)
           plen (decide (b1 &&& 0x80 ≠ 0)) (hs + plen)) := by
  simp only [parse_frame, h]

theorem parse_frame_noHeader (data : List Nat)
    (h : declHeader data = none) : parse_frame data = .incomplete := by
  match data with
  | [] => rfl
  | [b] => rfl
  | b1 :: b2 :: rest => simp only [parse_frame, h]

/-- Parsing a well-formed masked frame
`(0x80 ||| op) :: b2 :: ext ++ key ++ maskedPayload` recovers the opcode
and payload, with `fin = true` and the whole buffer consumed. -/
theorem parse_masked_frame (op b2 : Nat) (ext key payload : List Nat)
    (hop : op < 16) (hkey : key.length = 4) (hb2 : b2 &&& 0x80 ≠ 0)
    (h : declHeader ((0x80 ||| op) :: b2 :: (ext ++ key ++ maskPayload key payload 0))
          = some (2 + ext.length + 4, payload.length)) :
    parse_frame ((0x80 ||| op) :: b2 :: (ext ++ key ++ maskPayload key payload 0))
      = .frame op payload payload.length true
          (2 + ext.length + 4 + payload.length) := by
  rw [parse_frame_cons _ _ _ _ _ h]
  have hlen : (ext ++ key ++ maskPayload key payload 0).length
      = ext.length + 4 + payload.length := by
    simp only [List.length_append, maskPayload_length, hkey]
  have hnotlt : ¬ ((0x80 ||| op) :: b2 :: (ext ++ key ++ maskPayload key payload 0)).length
      < 2 + ext.length + 4 + payload.length := by
    simp only [List.length_cons, hlen]
    omega
  rw [if_neg hnotlt]
  have hdrop2 : (2 + ext.length + 4) - 4 = ext.length + 2 := by omega
  have hkeyslice :
      (((0x80 ||| op) :: b2 :: (ext ++ key ++ maskPayload key payload 0)).drop
          ((2 + ext.length + 4) - 4)).take 4 = key := by
    rw [hdrop2]
    show (List.drop ext.length (ext ++ key ++ maskPayload key payload 0)).take 4 = key
    rw [List.append_assoc, List.drop_left, List.take_left' hkey]
  have hpayslice :
      (((0x80 ||| op) :: b2 :: (ext ++ key ++ maskPayload key payload 0)).drop
          (2 + ext.length + 4)).take payload.length = maskPayload key payload 0 := by
    have h24 : 2 + ext.length + 4 = (ext.length + 4) + 2 := by omega
    rw [h24]
    show (List.drop (ext.length + 4) (ext ++ key ++ maskPayload key payload 0)).take
        payload.length = maskPayload key payload 0
    rw [List.append_assoc, ← List.drop_drop, List.drop_left, List.drop_left' hkey,
      List.take_of_length_le (le_of_eq (maskPayload_length key payload 0))]
  rw [hkeyslice, hpayslice, if_pos hb2, maskPayload_involutive]
  have hfin : (0x80 ||| op) &&& 0x80 = 128 := or128_and128 op (by omega)
  have hopc : (0x80 ||| op) &&& 0x0F = op := or128_and15 op hop
  rw [hopc]
  simp [hfin]

/-! ## `declHeader` on the three encoder branches -/

theorem declHeader_small (b1 L : Nat) (rest : List Nat) (hL : L ≤ 125) :
    declHeader (b1 :: (0x80 ||| L) :: rest) = some (6, L) := by
  have h127 : (0x80 ||| L) &&& 0x7F = L := or128_and127 L (by omega)
  have h128 : (0x80 ||| L) &&& 0x80 = 128 := or128_and128 L (by omega)
  simp only [declHeader, h127, h128]
  rw [if_neg (by omega : ¬ L = 126), if_neg (by omega : ¬ L = 127),
    if_pos (by omega : (128 : Nat) ≠ 0)]

theorem declHeader_ext16 (b1 L : Nat) (tail : List Nat)
    (hhi : L ≤ 65535) :
    declHeader (b1 :: (0x80 ||| 126) :: (pack16 L ++ tail)) = some (8, L) := by
  simp only [declHeader]
  rw [if_pos (by decide : (0x80 ||| 126) &&& 0x7F = 126),
    if_neg (by simp [pack16] : ¬ (pack16 L ++ tail).length < 2),
    if_pos (by decide : (0x80 ||| 126) &&& 0x80 ≠ 0),
    List.take_left' (pack16_length L), unpackBE_pack16 L hhi]

theorem declHeader_ext64 (b1 L : Nat) (tail : List Nat)
    (hhi : L < 2 ^ 64) :
    declHeader (b1 :: (0x80 ||| 127) :: (pack64 L ++ tail)) = some (14, L) := by
  simp only [declHeader]
  rw [if_neg (by decide : ¬ (0x80 ||| 127) &&& 0x7F = 126),
    if_pos (by decide : (0x80 ||| 127) &&& 0x7F = 127),
    if_neg (by simp [pack64] : ¬ (pack64 L ++ tail).length < 8),
    if_pos (by decide : (0x80 ||| 127) &&& 0x80 ≠ 0),
    List.take_left' (pack64_length L), unpackBE_pack64 L hhi]

/-! ## Round-trip: parsing an encoded frame -/

theorem frameWithKey_length (p : List Nat) (op : Nat) (key : List Nat)
    (hkey : key.length = 4) :
    (frameWithKey p op key).length =
      (if p.length ≤ 125 then 2 else if p.length ≤ 65535 then 4 else 10)
        + 4 + p.length := by
  simp only [frameWithKey]
  split_ifs with h1 h2 <;>
    simp [hkey, maskPayload_length, pack16, pack64] <;> omega

/-- Decoding any frame the encoder produces (for any 4-byte masking key)
recovers the opcode, the payload, `fin = true`, and consumes the whole
encoding. -/
theorem parse_frameWithKey (payload : List Nat) (op : Nat) (key : List Nat)
    (hop : op < 16) (hkey : key.length = 4)
    (hlen : payload.length < 2 ^ 64) :
    parse_frame (frameWithKey payload op key) =
      .frame op payload payload.length true
        (frameWithKey payload op key).length := by
  rw [frameWithKey_length payload op key hkey]
  by_cases h1 : payload.length ≤ 125
  · have hshape : frameWithKey payload op key =
        (0x80 ||| op) :: (0x80 ||| payload.length) ::
          ([] ++ key ++ maskPayload key payload 0) := by
      simp [frameWithKey, if_pos h1]
    rw [hshape, if_pos h1]
    have hd := declHeader_small (0x80 ||| op) payload.length
      ([] ++ key ++ maskPayload key payload 0) h1
    have hb2 : (0x80 ||| payload.length) &&& 0x80 ≠ 0 := by
      rw [or128_and128 payload.length (by omega)]; omega
    have := parse_masked_frame op (0x80 ||| payload.length)
      [] key payload hop hkey hb2 (by simpa using hd)
    simpa using this
  · by_cases h2 : payload.length ≤ 65535
    · have hshape : frameWithKey payload op key =
          (0x80 ||| op) :: (0x80 ||| 126) ::
            (pack16 payload.length ++ key ++ maskPayload key payload 0) := by
        simp [frameWithKey, if_neg h1, if_pos h2]
      rw [hshape, if_neg h1, if_pos h2]
      have hd := declHeader_ext16 (0x80 ||| op) payload.length
        (key ++ maskPayload key payload 0) h2
      have := parse_masked_frame op (0x80 ||| 126)
        (pack16 payload.length) key payload hop hkey (by decide)
        (by rw [List.append_assoc]; simpa [pack16] using hd)
      rw [List.append_assoc] at this ⊢
      simpa [pack16] using this
    · have hshape : frameWithKey payload op key =
          (0x80 ||| op) :: (0x80 ||| 127) ::
            (pack64 payload.length ++ key ++ maskPayload key payload 0) := by
        simp [frameWithKey, if_neg h1, if_neg h2]
      rw [hshape, if_neg h1, if_neg h2]
      have hd := declHeader_ext64 (0x80 ||| op) payload.length
        (key ++ maskPayload key payload 0) hlen
      have := parse_masked_frame op (0x80 ||| 127)
        (pack64 payload.length) key payload hop hkey (by decide)
        (by rw [List.append_assoc]; simpa [pack64] using hd)
      rw [List.append_assoc] at this ⊢
      simpa [pack64] using this

/-! ## Prefix behaviour of the decoder (split-buffer invariance) -/

theorem declHeader_shape (data : List Nat) (p : Nat × Nat)
    (h : declHeader data = some p) :
    ∃ b1 b2 rest, data = b1 :: b2 :: rest := by
  match data with
  | [] => exact absurd h (by simp [declHeader])
  | [b] => exact absurd h (by simp [declHeader])
  | b1 :: b2 :: rest => exact ⟨b1, b2, rest, rfl⟩

theorem declHeader_bounds (b1 b2 : Nat) (rest : List Nat) (hs plen : Nat)
    (h : declHeader (b1 :: b2 :: rest) = some (hs, plen)) :
    2 ≤ hs ∧ (b2 &&& 0x80 ≠ 0 → 6 ≤ hs) := by
  simp only [declHeader] at h
  split_ifs at h with h1 h2 h3 h4 <;> simp_all <;> omega

theorem declHeader_take_short (data : List Nat) (k : Nat) (hk : k < 2) :
    declHeader (data.take k) = none := by
  interval_cases k
  · simp [declHeader]
  · match data with
    | [] => simp [declHeader]
    | b :: rest => simp [declHeader]

/-- Reading the header from a prefix of at least two bytes either yields the
same header as the full buffer, or fails because the prefix stops inside the
extended length field (and is then shorter than the header). -/
theorem declHeader_take (b1 b2 : Nat) (rest : List Nat) (m hs plen : Nat)
    (h : declHeader (b1 :: b2 :: rest) = some (hs, plen)) :
    declHeader (b1 :: b2 :: rest.take m) = some (hs, plen) ∨
      (declHeader (b1 :: b2 :: rest.take m) = none ∧ m + 2 < hs) := by
  by_cases hm : b2 &&& 0x80 ≠ 0 <;>
    simp only [declHeader, if_pos hm, if_neg hm] at h ⊢ <;>
  · by_cases h126 : b2 &&& 0x7F = 126
    · rw [if_pos h126] at h ⊢
      by_cases hr : rest.length < 2
      · rw [if_pos hr] at h; exact absurd h (by simp)
      · rw [if_neg hr] at h
        by_cases hkr : (rest.take m).length < 2
        · rw [if_pos hkr]
          have hk2 : m < 2 := by
            simp only [List.length_take] at hkr; omega
          refine Or.inr ⟨rfl, ?_⟩
          simp only [Option.some.injEq, Prod.mk.injEq] at h
          omega
        · rw [if_neg hkr]
          have hk2 : 2 ≤ m := by
            simp only [List.length_take] at hkr; omega
          rw [List.take_take, show 2 ⊓ m = 2 by omega]
          exact Or.inl h
    · rw [if_neg h126] at h ⊢
      by_cases h127 : b2 &&& 0x7F = 127
      · rw [if_pos h127] at h ⊢
        by_cases hr : rest.length < 8
        · rw [if_pos hr] at h; exact absurd h (by simp)
        · rw [if_neg hr] at h
          by_cases hkr : (rest.take m).length < 8
          · rw [if_pos hkr]
            have hk8 : m < 8 := by
              simp only [List.length_take] at hkr; omega
            refine Or.inr ⟨rfl, ?_⟩
            simp only [Option.some.injEq, Prod.mk.injEq] at h
            omega
          · rw [if_neg hkr]
            have hk8 : 8 ≤ m := by
              simp only [List.length_take] at hkr; omega
            rw [List.take_take, show 8 ⊓ m = 8 by omega]
            exact Or.inl h
      · rw [if_neg h127] at h ⊢
        exact Or.inl h

/-- Inversion: everything `parse_frame` tells us when it returns a frame. -/
theorem parse_frame_frame_inv (data : List Nat) (op : Nat) (pl : List Nat)
    (plen : Nat) (fin : Bool) (c : Nat)
    (h : parse_frame data = .frame op pl plen fin c) :
    ∃ b1 b2 rest hs, data = b1 :: b2 :: rest ∧
      declHeader data = some (hs, plen) ∧ hs + plen ≤ data.length ∧
      c = hs + plen ∧ op = b1 &&& 0x0F ∧ fin = decide (b1 &&& 0x80 ≠ 0) ∧
      pl = (if b2 &&& 0x80 ≠ 0 then
              maskPayload ((data.drop (hs - 4)).take 4)
                ((data.drop hs).take plen) 0
            else (data.drop hs).take plen) := by
  match data with
  | [] => exact absurd h (by simp [parse_frame])
  | [b] => exact absurd h (by simp [parse_frame])
  | b1 :: b2 :: rest =>
    cases hd : declHeader (b1 :: b2 :: rest) with
    | none => rw [parse_frame_noHeader _ hd] at h; exact absurd h (by simp)
    | some p =>
      obtain ⟨hs0, plen0⟩ := p
      rw [parse_frame_cons _ _ _ _ _ hd] at h
      by_cases hlt : (b1 :: b2 :: rest).length < hs0 + plen0
      · rw [if_pos hlt] at h; exact absurd h (by simp)
      · rw [if_neg hlt] at h
        simp only [ParseResult.frame.injEq] at h
        obtain ⟨hop, hpl, hplen, hfin, hc⟩ := h
        subst hplen; subst hc
        exact ⟨b1, b2, rest, hs0, rfl, rfl, by omega, rfl,
          hop.symm, hfin.symm, hpl.symm⟩

/-- When the decoder returns a frame consuming `c` bytes, every prefix of
fewer than `c` bytes decodes to `Incomplete`, and every prefix of at least
`c` bytes (the whole buffer included) decodes to the very same frame. -/
theorem parse_frame_take (data : List Nat) (op : Nat) (pl : List Nat)
    (plen : Nat) (fin : Bool) (c : Nat)
    (h : parse_frame data = .frame op pl plen fin c) :
    c ≤ data.length ∧ ∀ k, parse_frame (data.take k) =
      (if k < c then .incomplete else .frame op pl plen fin c) := by
  obtain ⟨b1, b2, rest, hs, rfl, hd, hle, rfl, rfl, rfl, rfl⟩ :=
    parse_frame_frame_inv _ _ _ _ _ _ h
  refine ⟨hle, fun k => ?_⟩
  obtain ⟨h2hs, h6hs⟩ := declHeader_bounds _ _ _ _ _ hd
  simp only [List.length_cons] at hle
  by_cases hk2 : k < 2
  · rw [if_pos (by omega), parse_frame_noHeader _ (declHeader_take_short _ _ hk2)]
  · obtain ⟨m, rfl⟩ : ∃ m, k = m + 2 := ⟨k - 2, by omega⟩
    have htake : (b1 :: b2 :: rest).take (m + 2) = b1 :: b2 :: rest.take m := rfl
    rw [htake]
    rcases declHeader_take b1 b2 rest m hs plen hd with htk | ⟨htk, hlt⟩
    · rw [parse_frame_cons _ _ _ _ _ htk]
      by_cases hklt : m + 2 < hs + plen
      · rw [if_pos hklt, if_pos (by simp only [List.length_cons, List.length_take]; omega)]
      · rw [if_neg hklt,
          if_neg (by simp only [List.length_cons, List.length_take]; omega)]
        have hraw : ((b1 :: b2 :: rest.take m).drop hs).take plen
            = ((b1 :: b2 :: rest).drop hs).take plen := by
          rw [show (b1 :: b2 :: rest.take m) = (b1 :: b2 :: rest).take (m + 2) from rfl,
            List.drop_take, List.take_take, show plen ⊓ (m + 2 - hs) = plen by omega]
        by_cases hmask : b2 &&& 0x80 ≠ 0
        · have hkey : ((b1 :: b2 :: rest.take m).drop (hs - 4)).take 4
              = ((b1 :: b2 :: rest).drop (hs - 4)).take 4 := by
            have h6 := h6hs hmask
            rw [show (b1 :: b2 :: rest.take m) = (b1 :: b2 :: rest).take (m + 2) from rfl,
              List.drop_take, List.take_take, show 4 ⊓ (m + 2 - (hs - 4)) = 4 by omega]
          rw [if_pos hmask, if_pos hmask, hkey, hraw]
        · rw [if_neg hmask, if_neg hmask, hraw]
    · rw [if_pos (by omega), parse_frame_noHeader _ htk]

/-- Completeness: once the header is readable, the decoder returns a frame
exactly when the buffer holds the full header plus declared payload. -/
theorem parse_frame_complete (data : List Nat) (hs plen : Nat)
    (h : declHeader data = some (hs, plen)) :
    (hs + plen ≤ data.length →
      ∃ op pl fin, parse_frame data = .frame op pl plen fin (hs + plen)) ∧
    (data.length < hs + plen → parse_frame data = .incomplete) := by
  obtain ⟨b1, b2, rest, rfl⟩ := declHeader_shape data _ h
  constructor
  · intro hle
    rw [parse_frame_cons _ _ _ _ _ h, if_neg (by omega)]
    exact ⟨_, _, _, rfl⟩
  · intro hlt
    rw [parse_frame_cons _ _ _ _ _ h, if_pos hlt]

/-! ## Exception-checked decoder (Python runtime semantics)

`parse_frameE` transcribes `parse_frame` with every Python operation that
can raise — sequence indexing and `struct.unpack` — modelled as a checked
`Except` computation.  Proving it equal to `.ok (parse_frame data)` shows
the source decoder never raises and never reads out of bounds. -/

/-- Python sequence indexing: `IndexError` when out of bounds. -/
def pyIndex (data : List Nat) (i : Nat) : Except String Nat :=
  if h : i < data.length then .ok (data.get ⟨i, h⟩) else .error "IndexError"

/-- `struct.unpack` raises `struct.error` unless the slice has exactly the
requested byte count. -/
def pyUnpack (size : Nat) (bs : List Nat) : Except String Nat :=
  if bs.length = size then .ok (unpackBE bs) else .error "struct.error"

/-- The unmasking loop with checked indexing into the masking-key slice. -/
def maskPayloadE (key : List Nat) : List Nat → Nat → Except String (List Nat)
  | [], _ => .ok []
  | b :: rest, i => do
    let k ← pyIndex key (i % 4)
    let tail ← maskPayloadE key rest (i + 1)
    return (b ^^^ k) :: tail

/-- Masking-key extraction, completeness test, payload slicing and
unmasking — lines 79-90 of the source, checked. -/
def parseTailE (fin : Bool) (opcode : Nat) (mask : Bool) (plen hs0 : Nat)
    (data : List Nat) : Except String ParseResult := do
  let hs := if mask then hs0 + 4 else hs0
  let key := (data.drop (hs - 4)).take 4
  if data.length < hs + plen then return .incomplete
  let raw := (data.drop hs).take plen
  if mask then
    let payload ← maskPayloadE key raw 0
    return .frame opcode payload plen fin (hs + plen)
  else
    return .frame opcode raw plen fin (hs + plen)

/-- `parse_frame` with checked operations, following lines 56-90. -/
def parse_frameE (data : List Nat) : Except String ParseResult := do
  if data.length < 2 then return .incomplete
  let byte1 ← pyIndex data 0
  let byte2 ← pyIndex data 1
  let fin := decide (byte1 &&& 0x80 ≠ 0)
  let opcode := byte1 &&& 0x0F
  let mask := decide (byte2 &&& 0x80 ≠ 0)
  if byte2 &&& 0x7F = 126 then
    if data.length < 4 then return .incomplete
    let plen ← pyUnpack 2 ((data.drop 2).take 2)
    parseTailE fin opcode mask plen 4 data
  else if byte2 &&& 0x7F = 127 then
    if data.length < 10 then return .incomplete
    let plen ← pyUnpack 8 ((data.drop 2).take 8)
    parseTailE fin opcode mask plen 10 data
  else
    parseTailE fin opcode mask (byte2 &&& 0x7F) 2 data

theorem maskPayloadE_ok (key : List Nat) (hkey : key.length = 4)
    (l : List Nat) (i : Nat) :
    maskPayloadE key l i = .ok (maskPayload key l i) := by
  induction l generalizing i with
  | nil => rfl
  | cons b rest ih =>
    have hidx : i % 4 < key.length := by rw [hkey]; omega
    simp only [maskPayloadE, maskPayload, pyIndex, dif_pos hidx, ih]
    rw [List.getD_eq_getElem key 0 hidx]
    rfl

/-- The checked decoder tail agrees with the pure decoder whenever the
header it was given matches `declHeader`. -/
theorem parseTailE_eq (b1 b2 : Nat) (rest : List Nat) (plen hs0 : Nat)
    (hhs0 : 2 ≤ hs0)
    (hd : declHeader (b1 :: b2 :: rest)
      = some (hs0 + (if b2 &&& 0x80 ≠ 0 then 4 else 0), plen)) :
    parseTailE (decide (b1 &&& 0x80 ≠ 0)) (b1 &&& 0x0F)
        (decide (b2 &&& 0x80 ≠ 0)) plen hs0 (b1 :: b2 :: rest)
      = .ok (parse_frame (b1 :: b2 :: rest)) := by
  rw [parse_frame_cons _ _ _ _ _ hd]
  simp only [parseTailE, decide_eq_true_eq]
  by_cases hm : b2 &&& 0x80 ≠ 0
  · simp only [if_pos hm]
    by_cases hlt : (b1 :: b2 :: rest).length < hs0 + 4 + plen
    · simp only [if_pos hlt]
      rfl
    · simp only [if_neg hlt]
      have hL : hs0 + 4 + plen ≤ rest.length + 2 := by
        simp only [List.length_cons] at hlt; omega
      have h44 : hs0 + 4 - 4 = hs0 := by omega
      have hkeylen : (((b1 :: b2 :: rest).drop (hs0 + 4 - 4)).take 4).length = 4 := by
        simp only [List.length_take, List.length_drop, List.length_cons, h44]
        omega
      rw [maskPayloadE_ok _ hkeylen]
      rfl
  · simp only [if_neg hm, Nat.add_zero]
    by_cases hlt : (b1 :: b2 :: rest).length < hs0 + plen
    · simp only [if_pos hlt]
      rfl
    · simp only [if_neg hlt]
      rfl

/-- The decoder, run with Python's checked semantics, never raises: it
returns exactly the pure decoder's answer on every input. -/
theorem parse_frameE_eq (data : List Nat) :
    parse_frameE data = .ok (parse_frame data) := by
  match data with
  | [] => rfl
  | [b] => rfl
  | b1 :: b2 :: rest =>
    have e0 : pyIndex (b1 :: b2 :: rest) 0 = .ok b1 := by
      unfold pyIndex
      rw [dif_pos (by simp)]
      rfl
    have e1 : pyIndex (b1 :: b2 :: rest) 1 = .ok b2 := by
      unfold pyIndex
      rw [dif_pos (by simp)]
      rfl
    have hlen2 : ¬ (b1 :: b2 :: rest).length < 2 := by simp
    simp only [parse_frameE, if_neg hlen2, e0, e1]
    show (if b2 &&& 0x7F = 126 then _ else _) = _
    by_cases h126 : b2 &&& 0x7F = 126
    · rw [if_pos h126]
      by_cases h4 : (b1 :: b2 :: rest).length < 4
      · rw [if_pos h4]
        have hdrest : rest.length < 2 := by
          simp only [List.length_cons] at h4; omega
        rw [parse_frame_noHeader _ (by simp only [declHeader, if_pos h126, if_pos hdrest])]
        rfl
      · rw [if_neg h4]
        have hrlen : (((b1 :: b2 :: rest).drop 2).take 2).length = 2 := by
          simp only [List.length_take, List.length_drop, List.length_cons]
          simp only [List.length_cons] at h4
          omega
        have hunp : pyUnpack 2 (((b1 :: b2 :: rest).drop 2).take 2)
            = .ok (unpackBE (rest.take 2)) := by
          unfold pyUnpack
          rw [if_pos hrlen]
          rfl
        rw [hunp]
        show parseTailE _ _ _ _ 4 _ = _
        refine parseTailE_eq b1 b2 rest _ 4 (by omega) ?_
        simp only [declHeader, if_pos h126,
          if_neg (by simp only [List.length_cons] at h4 ⊢; omega : ¬ rest.length < 2)]
    · rw [if_neg h126]
      by_cases h127 : b2 &&& 0x7F = 127
      · rw [if_pos h127]
        by_cases h10 : (b1 :: b2 :: rest).length < 10
        · rw [if_pos h10]
          have hdrest : rest.length < 8 := by
            simp only [List.length_cons] at h10; omega
          rw [parse_frame_noHeader _
            (by simp only [declHeader, if_neg h126, if_pos h127, if_pos hdrest])]
          rfl
        · rw [if_neg h10]
          have hrlen : (((b1 :: b2 :: rest).drop 2).take 8).length = 8 := by
            simp only [List.length_take, List.length_drop, List.length_cons]
            simp only [List.length_cons] at h10
            omega
          have hunp : pyUnpack 8 (((b1 :: b2 :: rest).drop 2).take 8)
              = .ok (unpackBE (rest.take 8)) := by
            unfold pyUnpack
            rw [if_pos hrlen]
            rfl
          rw [hunp]
          show parseTailE _ _ _ _ 10 _ = _
          refine parseTailE_eq b1 b2 rest _ 10 (by omega) ?_
          simp only [declHeader, if_neg h126, if_pos h127,
            if_neg (by simp only [List.length_cons] at h10 ⊢; omega : ¬ rest.length < 8)]
      · rw [if_neg h127]
        refine parseTailE_eq b1 b2 rest _ 2 (by omega) ?_
        simp only [declHeader, if_neg h126, if_neg h127]

/-! ## SHA-1 and base64 (Python `hashlib` / `base64` standard library)

The handshake derives its accept key with `hashlib.sha1` and
`base64.b64encode`, library code outside the repository.  Modelled from
the spec ("Accept key = base64(SHA-1(clientKey + fixed GUID))") following
the standard definitions: FIPS 180-1 SHA-1 and RFC 4648 base64. -/

/-- Rotate a 32-bit word left by `n` bits. -/
def rotl32 (n b : Nat) : Nat :=
  ((b % 2 ^ 32) * 2 ^ n + (b % 2 ^ 32) / 2 ^ (32 - n)) % 2 ^ 32

/-- Modelled from the spec: SHA-1 message padding (append `0x80`, zero
bytes to 56 mod 64, then the bit length as 64-bit big-endian). -/
def sha1pad (msg : List Nat) : List Nat :=
  msg ++ [0x80] ++ List.replicate ((120 - (msg.length + 1) % 64) % 64) 0
      ++ pack64 (msg.length * 8)

/-- 64-byte chunks of the padded message; the fuel is instantiated with
the list length, which bounds the number of chunks. -/
def toBlocks : Nat → List Nat → List (List Nat)
  | 0, _ => []
  | _, [] => []
  | fuel + 1, l => l.take 64 :: toBlocks fuel (l.drop 64)

/-- Modelled from the spec: extend the 16 schedule words to 80 by
`w[i] = rotl1(w[i-3] xor w[i-8] xor w[i-14] xor w[i-16])`. -/
def extendWords : Nat → List Nat → List Nat
  | 0, w => w
  | n + 1, w =>
    extendWords n (w ++ [rotl32 1 ((w.getD (w.length - 3) 0)
      ^^^ (w.getD (w.length - 8) 0) ^^^ (w.getD (w.length - 14) 0)
      ^^^ (w.getD (w.length - 16) 0))])

/-- Modelled from the spec: the 80-word SHA-1 message schedule. -/
def sha1ws (block : List Nat) : List Nat :=
  extendWords 64 ((List.range 16).map fun j => unpackBE ((block.drop (4 * j)).take 4))

/-- Modelled from the spec: one SHA-1 round on the state `(a,b,c,d,e)`. -/
def sha1round (i : Nat) (st : Nat × Nat × Nat × Nat × Nat) (wi : Nat) :
    Nat × Nat × Nat × Nat × Nat :=
  let a := st.1
  let b := st.2.1
  let c := st.2.2.1
  let d := st.2.2.2.1
  let e := st.2.2.2.2
  let f :=
    if i < 20 then (b &&& c) ||| ((b ^^^ 0xFFFFFFFF) &&& d)
    else if i < 40 then b ^^^ c ^^^ d
    else if i < 60 then (b &&& c) ||| (b &&& d) ||| (c &&& d)
    else b ^^^ c ^^^ d
  let k :=
    if i < 20 then 0x5A827999
    else if i < 40 then 0x6ED9EBA1
    else if i < 60 then 0x8F1BBCDC
    else 0xCA62C1D6
  ((rotl32 5 a + f + e + k + wi) % 2 ^ 32, a, rotl32 30 b, c, d)

/-- Modelled from the spec: SHA-1 compression of one 64-byte block. -/
def sha1block (hst : Nat × Nat × Nat × Nat × Nat) (block : List Nat) :
    Nat × Nat × Nat × Nat × Nat :=
  let ws := sha1ws block
  let st := (List.range 80).foldl (fun st i => sha1round i st (ws.getD i 0)) hst
  ((hst.1 + st.1) % 2 ^ 32, (hst.2.1 + st.2.1) % 2 ^ 32,
   (hst.2.2.1 + st.2.2.1) % 2 ^ 32, (hst.2.2.2.1 + st.2.2.2.1) % 2 ^ 32,
   (hst.2.2.2.2 + st.2.2.2.2) % 2 ^ 32)

/-- Modelled from the spec: `hashlib.sha1(msg).digest()`, 20 bytes. -/
def sha1 (msg : List Nat) : List Nat :=
  let padded := sha1pad msg
  let st := (toBlocks padded.length padded).foldl sha1block
    (0x67452301, 0xEFCDAB89, 0x98BADCFE, 0x10325476, 0xC3D2E1F0)
  pack32 st.1 ++ pack32 st.2.1 ++ pack32 st.2.2.1 ++ pack32 st.2.2.2.1
    ++ pack32 st.2.2.2.2

/-- Modelled from the spec: the RFC 4648 base64 alphabet, as ASCII bytes. -/
def b64table : List Nat :=
  asciiBytes "ABCDEFGHIJKLMNOPQRSTUVWXYZabcdefghijklmnopqrstuvwxyz0123456789+/"

/-- Modelled from the spec: `base64.b64encode` on bytes, producing ASCII
bytes (61 is the pad character). -/
def b64encode : List Nat → List Nat
  | [] => []
  | [a] =>
    [b64table.getD (a / 4) 0, b64table.getD (a % 4 * 16) 0, 61, 61]
  | [a, b] =>
    [b64table.getD (a / 4) 0, b64table.getD (a % 4 * 16 + b / 16) 0,
     b64table.getD (b % 16 * 4) 0, 61]
  | a :: b :: c :: rest =>
    b64table.getD (a / 4) 0 :: b64table.getD (a % 4 * 16 + b / 16) 0 ::
      b64table.getD (b % 16 * 4 + c / 64) 0 :: b64table.getD (c % 64) 0 ::
      b64encode rest

/-! ## Handshake negotiator: `WebSocketServer._handshake` (lines 96-134) -/

/-- `WebSocketServer.GUID` (line 98). -/
def GUID : List Nat := asciiBytes "258EAFA5-E914-47DA-95CA-C5AB0DC85B11"

/-- Accept-key derivation (lines 124-125):
`base64.b64encode(hashlib.sha1(key + GUID).digest())`. -/
def accept_key (clientKey : List Nat) : List Nat :=
  b64encode (sha1 (clientKey ++ GUID))

/-- Python `str.lower` on ASCII bytes. -/
def lowerBytes (l : List Nat) : List Nat :=
  l.map (fun b => if 65 ≤ b ∧ b ≤ 90 then b + 32 else b)

/-- Prefix test on byte strings (Python `str.startswith`, and the matching
step of substring search). -/
def isPrefixList (pre l : List Nat) : Bool :=
  match pre, l with
  | [], _ => true
  | _ :: _, [] => false
  | a :: pre, b :: l => a == b && isPrefixList pre l

/-- Python `needle in haystack` on byte strings. -/
def containsList (needle : List Nat) : List Nat → Bool
  | [] => isPrefixList needle []
  | b :: rest => isPrefixList needle (b :: rest) || containsList needle rest

/-- Python `s.split(sep)` for a two-character separator `s1 s2`, scanning
left to right. -/
def split2 (s1 s2 : Nat) : List Nat → List (List Nat)
  | [] => [[]]
  | [b] => [[b]]
  | a :: b :: rest =>
    if a = s1 ∧ b = s2 then [] :: split2 s1 s2 rest
    else
      match split2 s1 s2 (b :: rest) with
      | [] => [[a]]
      | x :: xs => (a :: x) :: xs

/-- Python `s.split(sep, 1)` for a two-character separator: split once, at
the first occurrence. -/
def split2once (s1 s2 : Nat) : List Nat → List (List Nat)
  | [] => [[]]
  | [b] => [[b]]
  | a :: b :: rest =>
    if a = s1 ∧ b = s2 then [[], rest]
    else
      match split2once s1 s2 (b :: rest) with
      | [] => [[a]]
      | x :: xs => (a :: x) :: xs

/-- One line of the header loop (lines 114-117): a line containing `": "`
(58, 32) contributes the binding `key.lower() -> value`. -/
def parseHeaderLine (line : List Nat) : Option (List Nat × List Nat) :=
  match split2once 58 32 line with
  | [k, v] => some (lowerBytes k, v)
  | _ => none

/-- The headers dict built from `data.split("\r\n")[1:]` (lines 113-117);
13, 10 is `"\r\n"`. -/
def parseHeaders (data : List Nat) : List (List Nat × List Nat) :=
  ((split2 13 10 data).drop 1).filterMap parseHeaderLine

/-- Python `dict` lookup on the headers: the last binding for a key wins. -/
def headerGet (headers : List (List Nat × List Nat)) (k : List Nat) :
    Option (List Nat) :=
  headers.foldl (fun acc p => if p.1 = k then some p.2 else acc) none

/-- `WebSocketServer._handshake` (lines 108-134) as a function from the
received request bytes to the response bytes written on success; `none`
means the handshake fails, and nothing — in particular no `101` response
— is written to the transport. -/
def handshake (data : List Nat) : Option (List Nat) :=
  if ¬ isPrefixList (asciiBytes "GET") data then none
  else
    match headerGet (parseHeaders data) (asciiBytes "upgrade"),
        headerGet (parseHeaders data) (asciiBytes "connection"),
        headerGet (parseHeaders data) (asciiBytes "sec-websocket-key") with
    | some u, some c, some k =>
      if containsList (asciiBytes "websocket") (lowerBytes u)
          && containsList (asciiBytes "upgrade") (lowerBytes c) then
        some (asciiBytes
            "HTTP/1.1 101 Switching Protocols\r\nUpgrade: websocket\r\nConnection: Upgrade\r\nSec-WebSocket-Accept: "
          ++ accept_key k ++ asciiBytes "\r\n\r\n")
      else none
    | _, _, _ => none

/-! ## Registry and broadcast hub (src/main.py lines 96-190)

Sockets become abstract connection identifiers (`Nat`); the `clients`
dict becomes an association list in insertion order with unique keys (the
dict invariant); `sock.send(frame)` becomes an emitted
`(connection, bytes)` pair.  Transport failures are not modelled: every
write succeeds. -/

/-- The `self.clients` dict: connection identifier to display name. -/
abbrev Registry := List (Nat × List Nat)

/-- Python `dict` lookup on the registry: the last binding wins. -/
def dictGet (clients : Registry) (k : Nat) : Option (List Nat) :=
  clients.foldl (fun acc p => if p.1 = k then some p.2 else acc) none

/-- Python `dict.pop` on the registry; dict keys are unique, so dropping
every binding of the key is the same operation. -/
def dictRemove (clients : Registry) (k : Nat) : Registry :=
  clients.filter (fun p => p.1 ≠ k)

/-- `WebSocketServer.broadcast(message, sender_sock)` (lines 170-178):
encode the message once as a text frame — the role-independent encoder,
so the frame is masked with the time-derived key — and write it to every
registered client other than the sender.  Returns the writes performed,
in registry order. -/
def broadcast (clients : Registry) (message : List Nat) (sender : Option Nat)
    (nowMs : Nat) : List (Nat × List Nat) :=
  (clients.map Prod.fst).filterMap
    (fun s => if some s = sender then none
              else some (s, create_frame message OPCODE_TEXT true nowMs))

/-- `WebSocketServer.close_client(client_sock)` (lines 180-190): when the
connection is registered, pop it, send it a close frame, and broadcast
the leave notice to the remaining clients; otherwise do nothing.  Returns
the new registry and the writes performed. -/
def close_client (clients : Registry) (sock : Nat) (nowMs : Nat) :
    Registry × List (Nat × List Nat) :=
  match dictGet clients sock with
  | none => (clients, [])
  | some username =>
    let clients2 := dictRemove clients sock
    (clients2,
      (sock, create_frame [] OPCODE_CLOSE true nowMs) ::
        broadcast clients2 (username ++ asciiBytes " has left the chat")
          none nowMs)

/-! ## Registry and broadcast lemmas -/

theorem dictGet_foldl_skip (l : Registry) (k : Nat) (acc : Option (List Nat))
    (h : ∀ p ∈ l, p.1 ≠ k) :
    l.foldl (fun acc p => if p.1 = k then some p.2 else acc) acc = acc := by
  induction l generalizing acc with
  | nil => rfl
  | cons p rest ih =>
    have hp : p.1 ≠ k := h p (by simp)
    simp only [List.foldl_cons, if_neg hp]
    exact ih _ (fun q hq => h q (by simp [hq]))

theorem dictGet_dictRemove (clients : Registry) (k : Nat) :
    dictGet (dictRemove clients k) k = none := by
  apply dictGet_foldl_skip
  intro p hp
  simp only [dictRemove, List.mem_filter] at hp
  simpa using hp.2

theorem mem_dictRemove_ne (clients : Registry) (k d : Nat)
    (h : d ∈ (dictRemove clients k).map Prod.fst) : d ≠ k := by
  simp only [List.mem_map, dictRemove, List.mem_filter] at h
  obtain ⟨p, ⟨_, hp⟩, rfl⟩ := h
  simpa using hp

theorem nodup_dictRemove (clients : Registry) (k : Nat)
    (h : (clients.map Prod.fst).Nodup) :
    ((dictRemove clients k).map Prod.fst).Nodup :=
  h.sublist ((List.filter_sublist clients).map Prod.fst)

/-- With no excluded sender, broadcast writes the frame to every
registered client, in registry order. -/
theorem broadcast_none (clients : Registry) (msg : List Nat) (ms : Nat) :
    broadcast clients msg none ms =
      clients.map (fun p => (p.1, create_frame msg OPCODE_TEXT true ms)) := by
  simp only [broadcast]
  induction clients with
  | nil => rfl
  | cons p rest ih =>
    have hf : (if (some p.1 : Option Nat) = none then none
        else some (p.1, create_frame msg OPCODE_TEXT true ms))
        = some (p.1, create_frame msg OPCODE_TEXT true ms) := by
      rw [if_neg (by simp)]
    simp only [List.map_cons, List.filterMap_cons, hf, ih]

theorem broadcast_none_fst (clients : Registry) (msg : List Nat) (ms : Nat) :
    (broadcast clients msg none ms).map Prod.fst = clients.map Prod.fst := by
  rw [broadcast_none]
  simp

/-- Targets of a broadcast that excludes a sender: exactly the registered
clients other than the sender. -/
theorem broadcast_mem (clients : Registry) (msg : List Nat) (sender : Nat)
    (ms : Nat) (d : Nat) :
    d ∈ (broadcast clients msg (some sender) ms).map Prod.fst ↔
      d ∈ clients.map Prod.fst ∧ d ≠ sender := by
  constructor
  · intro hd
    simp only [List.mem_map] at hd
    obtain ⟨w, hw, rfl⟩ := hd
    simp only [broadcast, List.mem_filterMap] at hw
    obtain ⟨s, hs, hf⟩ := hw
    by_cases hss : (some s : Option Nat) = some sender
    · rw [if_pos hss] at hf
      exact absurd hf (by simp)
    · rw [if_neg hss] at hf
      obtain rfl : (s, create_frame msg OPCODE_TEXT true ms) = w := by
        simpa using hf
      exact ⟨hs, by simpa using hss⟩
  · rintro ⟨hd, hdsender⟩
    simp only [List.mem_map]
    refine ⟨(d, create_frame msg OPCODE_TEXT true ms), ?_, rfl⟩
    simp only [broadcast, List.mem_filterMap]
    exact ⟨d, hd, by rw [if_neg (by simpa using hdsender)]⟩

/-- Every write a broadcast performs carries the one encoded text frame. -/
theorem broadcast_frames (clients : Registry) (msg : List Nat)
    (sender : Option Nat) (ms : Nat) (w : Nat × List Nat)
    (hw : w ∈ broadcast clients msg sender ms) :
    w.2 = create_frame msg OPCODE_TEXT true ms := by
  simp only [broadcast, List.mem_filterMap] at hw
  obtain ⟨s, hs, hf⟩ := hw
  by_cases hss : (some s : Option Nat) = sender
  · rw [if_pos hss] at hf
    exact absurd hf (by simp)
  · rw [if_neg hss] at hf
    obtain rfl : (s, create_frame msg OPCODE_TEXT true ms) = w := by simpa using hf
    rfl

/-- The MASK bit of byte 1 is set on every frame the encoder produces,
whatever the `mask` argument says. -/
theorem create_frame_mask_bit (payload : List Nat) (opcode : Nat)
    (mask : Bool) (ms : Nat) :
    (create_frame payload opcode mask ms).getD 1 0 &&& 0x80 = 0x80 := by
  simp only [create_frame, frameWithKey]
  by_cases h1 : payload.length ≤ 125
  · rw [if_pos h1]
    exact or128_and128 _ (by omega)
  · by_cases h2 : payload.length ≤ 65535
    · rw [if_neg h1, if_pos h2]
      show ((0x80 : Nat) ||| 126) &&& 0x80 = 0x80
      decide
    · rw [if_neg h1, if_neg h2]
      show ((0x80 : Nat) ||| 127) &&& 0x80 = 0x80
      decide

/-- Case analysis of the handshake: it either fails with no response, or
every validation step passed and the `101` response embedding the accept
key is returned. -/
theorem handshake_cases (data : List Nat) :
    handshake data = none ∨
    ∃ u c k, isPrefixList (asciiBytes "GET") data = true ∧
      headerGet (parseHeaders data) (asciiBytes "upgrade") = some u ∧
      headerGet (parseHeaders data) (asciiBytes "connection") = some c ∧
      headerGet (parseHeaders data) (asciiBytes "sec-websocket-key") = some k ∧
      containsList (asciiBytes "websocket") (lowerBytes u) = true ∧
      containsList (asciiBytes "upgrade") (lowerBytes c) = true ∧
      handshake data = some (asciiBytes
          "HTTP/1.1 101 Switching Protocols\r\nUpgrade: websocket\r\nConnection: Upgrade\r\nSec-WebSocket-Accept: "
        ++ accept_key k ++ asciiBytes "\r\n\r\n") := by
  unfold handshake
  by_cases hget : isPrefixList (asciiBytes "GET") data
  · rw [if_neg (by simpa using hget)]
    cases hu : headerGet (parseHeaders data) (asciiBytes "upgrade") with
    | none => exact Or.inl rfl
    | some u =>
      cases hc : headerGet (parseHeaders data) (asciiBytes "connection") with
      | none => exact Or.inl rfl
      | some c =>
        cases hk : headerGet (parseHeaders data) (asciiBytes "sec-websocket-key") with
        | none => exact Or.inl rfl
        | some k =>
          dsimp only []
          by_cases hb : containsList (asciiBytes "websocket") (lowerBytes u)
              && containsList (asciiBytes "upgrade") (lowerBytes c)
          · rw [if_pos hb]
            rw [Bool.and_eq_true] at hb
            exact Or.inr ⟨u, c, k, hget, rfl, rfl, rfl, hb.1, hb.2, rfl⟩
          · rw [if_neg hb]
            exact Or.inl rfl
  · rw [if_pos (by simpa using hget)]
    exact Or.inl rfl

/-! ## The claims -/

/-- Claim C1 (refuted — the code is the outlier): the claim requires
frames produced in the server (accepting) role to have the MASK bit clear
and carry no key, and frames the server's broadcast writes to be
unmasked.  The code never consults its `mask`/role argument: byte 1 of
every frame it creates has the MASK bit set, and the frame broadcast
writes to the other client carries the 4-byte time-derived masking key
right after the two header bytes. -/
theorem claim1_every_frame_masked :
    (∀ payload opcode mask ms,
      (create_frame payload opcode mask ms).getD 1 0 &&& 0x80 = 0x80) ∧
    (∃ fr, broadcast [(1, asciiBytes "a"), (2, asciiBytes "b")]
          (asciiBytes "hi") (some 1) 0 = [(2, fr)] ∧
        fr.getD 1 0 &&& 0x80 = 0x80 ∧
        (fr.drop 2).take 4 = maskingKeyFromTime 0) := by
  refine ⟨create_frame_mask_bit, create_frame (asciiBytes "hi") OPCODE_TEXT true 0, ?_, ?_, ?_⟩
  · decide
  · decide
  · decide

/-- Claim C2: for payloads of length 0, 125, 126, 65535 and 65536 and
every opcode among continuation, text, binary, close, ping and pong,
decoding the encoder's output returns the original opcode and payload
with `fin = true`, whatever the role flag and the clock said. -/
theorem claim2_roundtrip (payload : List Nat) (opcode : Nat) (mask : Bool)
    (nowMs : Nat)
    (hlen : payload.length ∈ ([0, 125, 126, 65535, 65536] : List Nat))
    (hop : opcode ∈ ([OPCODE_CONT, OPCODE_TEXT, OPCODE_BINARY, OPCODE_CLOSE,
        OPCODE_PING, OPCODE_PONG] : List Nat)) :
    parse_frame (create_frame payload opcode mask nowMs) =
      .frame opcode payload payload.length true
        (create_frame payload opcode mask nowMs).length := by
  have hop16 : opcode < 16 := by
    fin_cases hop <;> decide
  have h64 : payload.length < 2 ^ 64 := by
    simp only [List.mem_cons, List.not_mem_nil, or_false] at hlen
    omega
  exact parse_frameWithKey payload opcode (maskingKeyFromTime nowMs) hop16
    (maskingKeyFromTime_length nowMs) h64

theorem claim2_roundtrip_witness :
    parse_frame (create_frame [] OPCODE_TEXT true 0) =
      .frame OPCODE_TEXT [] 0 true 6 :=
  claim2_roundtrip [] OPCODE_TEXT true 0 (by decide) (by decide)

/-- Claim C3: the decoder returns a frame consuming `header + declared
length` bytes exactly when the buffer holds at least that many bytes and
returns `Incomplete` otherwise; consequently every strict prefix of an
encoded frame decodes to `Incomplete`, and accumulating bytes until a
frame appears yields the same frame as decoding the whole buffer. -/
theorem claim3_incremental_decode (data : List Nat) :
    (∀ hs plen, declHeader data = some (hs, plen) →
      if hs + plen ≤ data.length
      then ∃ op pl fin, parse_frame data = .frame op pl plen fin (hs + plen)
      else parse_frame data = .incomplete) ∧
    (declHeader data = none → parse_frame data = .incomplete) ∧
    (∀ op pl plen fin c, parse_frame data = .frame op pl plen fin c →
      c ≤ data.length ∧
      ∀ k, parse_frame (data.take k) =
        if k < c then .incomplete else .frame op pl plen fin c) := by
  refine ⟨?_, parse_frame_noHeader data, ?_⟩
  · intro hs plen h
    rcases parse_frame_complete data hs plen h with ⟨hc, hi⟩
    by_cases hle : hs + plen ≤ data.length
    · rw [if_pos hle]
      exact hc hle
    · rw [if_neg hle]
      exact hi (by omega)
  · intro op pl plen fin c h
    exact parse_frame_take data op pl plen fin c h

theorem claim3_incremental_decode_witness :
    parse_frame ([0x81, 0x81, 1, 2, 3, 4, 9, 99].take 6) = .incomplete ∧
    parse_frame ([0x81, 0x81, 1, 2, 3, 4, 9, 99].take 7) =
      .frame 1 [8] 1 true 7 := by
  have h := (claim3_incremental_decode [0x81, 0x81, 1, 2, 3, 4, 9, 99]).2.2
    1 [8] 1 true 7 (by decide)
  exact ⟨by simpa using h.2 6, by simpa using h.2 7⟩

/-- Claim C4: the encoder's length field is the payload length itself in
the low 7 bits of byte 1 for payloads of at most 125 bytes, the marker
126 followed by the 16-bit big-endian length for payloads of at most
65535 bytes, and the marker 127 followed by the 64-bit big-endian length
otherwise. -/
theorem claim4_length_field (payload : List Nat) (opcode : Nat) (mask : Bool)
    (ms : Nat) :
    ((create_frame payload opcode mask ms).getD 1 0) &&& 0x7F =
      (if payload.length ≤ 125 then payload.length
       else if payload.length ≤ 65535 then 126 else 127) ∧
    ((create_frame payload opcode mask ms).drop 2).take
        (if payload.length ≤ 125 then 0
         else if payload.length ≤ 65535 then 2 else 8) =
      (if payload.length ≤ 125 then []
       else if payload.length ≤ 65535 then pack16 payload.length
       else pack64 payload.length) := by
  simp only [create_frame, frameWithKey]
  by_cases h1 : payload.length ≤ 125
  · simp only [if_pos h1]
    exact ⟨or128_and127 _ (by omega), rfl⟩
  · by_cases h2 : payload.length ≤ 65535
    · simp only [if_neg h1, if_pos h2]
      constructor
      · show ((0x80 : Nat) ||| 126) &&& 0x7F = 126
        decide
      · show ((pack16 payload.length ++ maskingKeyFromTime ms)
            ++ maskPayload (maskingKeyFromTime ms) payload 0).take 2
          = pack16 payload.length
        rw [List.append_assoc, List.take_left' (pack16_length payload.length)]
    · simp only [if_neg h1, if_neg h2]
      constructor
      · show ((0x80 : Nat) ||| 127) &&& 0x7F = 127
        decide
      · show ((pack64 payload.length ++ maskingKeyFromTime ms)
            ++ maskPayload (maskingKeyFromTime ms) payload 0).take 8
          = pack64 payload.length
        rw [List.append_assoc, List.take_left' (pack64_length payload.length)]

set_option maxRecDepth 10000 in
/-- Claim C5: for every client key the handshake's accept key is
`base64(SHA-1(clientKey ++ GUID))` with the fixed RFC 6455 GUID, and on
the RFC worked example `dGhlIHNhbXBsZSBub25jZQ==` it computes exactly
`s3pPLMBiTxaQ9kYGzzhZRbK+xOo=`. -/
theorem claim5_accept_key :
    (∀ clientKey : List Nat,
      accept_key clientKey = b64encode (sha1 (clientKey ++ GUID))) ∧
    GUID = asciiBytes "258EAFA5-E914-47DA-95CA-C5AB0DC85B11" ∧
    accept_key (asciiBytes "dGhlIHNhbXBsZSBub25jZQ==")
      = asciiBytes "s3pPLMBiTxaQ9kYGzzhZRbK+xOo=" :=
  ⟨fun _ => rfl, rfl, by decide⟩

/-- Claim C6 (refuted — the code is the outlier): the claim requires the
masking key to be independent of the wall clock; in the code the key is
`pack32(nowMs % 0xFFFFFFFF)`, so encoding the same payload and opcode at
times differing by one millisecond produces different keys and different
frames. -/
theorem claim6_key_depends_on_clock :
    (∀ ms, maskingKeyFromTime ms = pack32 (ms % 0xFFFFFFFF)) ∧
    maskingKeyFromTime 0 ≠ maskingKeyFromTime 1 ∧
    create_frame [] OPCODE_TEXT true 0 ≠ create_frame [] OPCODE_TEXT true 1 :=
  ⟨fun _ => rfl, by decide, by decide⟩

/-- Claim C7: a handshake request that does not start with `GET`, or
whose (case-insensitively keyed) headers lack an `Upgrade` header
containing `websocket`, a `Connection` header containing `Upgrade`, or a
`Sec-WebSocket-Key` header, fails: no response — in particular no `101
Switching Protocols` bytes — is written. -/
theorem claim7_handshake_rejection (data : List Nat)
    (h : isPrefixList (asciiBytes "GET") data = false
      ∨ headerGet (parseHeaders data) (asciiBytes "upgrade") = none
      ∨ headerGet (parseHeaders data) (asciiBytes "connection") = none
      ∨ headerGet (parseHeaders data) (asciiBytes "sec-websocket-key") = none
      ∨ (∀ u, headerGet (parseHeaders data) (asciiBytes "upgrade") = some u →
          containsList (asciiBytes "websocket") (lowerBytes u) = false)
      ∨ (∀ c, headerGet (parseHeaders data) (asciiBytes "connection") = some c →
          containsList (asciiBytes "upgrade") (lowerBytes c) = false)) :
    handshake data = none := by
  rcases handshake_cases data with hn | ⟨u, c, k, hget, hu, hc, hk, hwu, hcu, _⟩
  · exact hn
  · rcases h with h | h | h | h | h | h
    · rw [hget] at h
      exact absurd h (by simp)
    · rw [hu] at h
      exact absurd h (by simp)
    · rw [hc] at h
      exact absurd h (by simp)
    · rw [hk] at h
      exact absurd h (by simp)
    · rw [h u hu] at hwu
      exact absurd hwu (by simp)
    · rw [h c hc] at hcu
      exact absurd hcu (by simp)

theorem claim7_handshake_rejection_witness :
    handshake (asciiBytes "POST / HTTP/1.1\r\nUpgrade: websocket\r\nConnection: Upgrade\r\nSec-WebSocket-Key: dGhlIHNhbXBsZSBub25jZQ==\r\n\r\n") = none ∧
    handshake (asciiBytes "GET / HTTP/1.1\r\nConnection: Upgrade\r\n\r\n") = none :=
  ⟨claim7_handshake_rejection _ (Or.inl (by decide)),
   claim7_handshake_rejection _ (Or.inr (Or.inl (by decide)))⟩

/-- Claim C8: processing a close frame for a registered connection
removes it from the registry and broadcasts the leave notice
`name ++ " has left the chat"` to every remaining registered connection
exactly once; running the close path again for the same connection is a
no-op that changes no state and performs no writes. -/
theorem claim8_close_once (clients : Registry) (sock : Nat) (name : List Nat)
    (ms : Nat) (hnd : (clients.map Prod.fst).Nodup)
    (hreg : dictGet clients sock = some name) :
    sock ∉ (close_client clients sock ms).1.map Prod.fst ∧
    (∀ d, d ∈ (close_client clients sock ms).1.map Prod.fst →
      ((close_client clients sock ms).2.map Prod.fst).count d = 1 ∧
      (d, create_frame (name ++ asciiBytes " has left the chat")
          OPCODE_TEXT true ms) ∈ (close_client clients sock ms).2) ∧
    close_client (close_client clients sock ms).1 sock ms =
      ((close_client clients sock ms).1, []) := by
  have hcc : close_client clients sock ms =
      (dictRemove clients sock,
        (sock, create_frame [] OPCODE_CLOSE true ms) ::
          broadcast (dictRemove clients sock)
            (name ++ asciiBytes " has left the chat") none ms) := by
    simp only [close_client, hreg]
  rw [hcc]
  refine ⟨?_, ?_, ?_⟩
  · intro hmem
    exact mem_dictRemove_ne clients sock sock hmem rfl
  · intro d hd
    have hne : d ≠ sock := mem_dictRemove_ne clients sock d hd
    constructor
    · simp only [List.map_cons, List.count_cons, broadcast_none_fst]
      rw [if_neg (by simpa using hne.symm)]
      rw [List.count_eq_one_of_mem (nodup_dictRemove clients sock hnd) hd]
    · refine List.mem_cons.2 (Or.inr ?_)
      rw [broadcast_none]
      simp only [List.mem_map] at hd ⊢
      obtain ⟨p, hp, rfl⟩ := hd
      exact ⟨p, hp, rfl⟩
  · simp only [close_client, dictGet_dictRemove]

theorem claim8_close_once_witness :
    (((close_client [(1, asciiBytes "alice"), (2, asciiBytes "bob")] 1 0).2.map
        Prod.fst).count 2 = 1) ∧
    close_client (close_client [(1, asciiBytes "alice"), (2, asciiBytes "bob")] 1 0).1 1 0
      = ((close_client [(1, asciiBytes "alice"), (2, asciiBytes "bob")] 1 0).1, []) := by
  have h := claim8_close_once [(1, asciiBytes "alice"), (2, asciiBytes "bob")]
    1 (asciiBytes "alice") 0 (by decide) (by decide)
  exact ⟨(h.2.1 2 (by decide)).1, h.2.2⟩

/-- Claim C9: a broadcast excluding a sender writes the encoded text
frame to exactly the currently registered connections other than the
sender, and never to the sender itself. -/
theorem claim9_broadcast_exclusion (clients : Registry) (msg : List Nat)
    (sender : Nat) (ms : Nat) :
    sender ∉ (broadcast clients msg (some sender) ms).map Prod.fst ∧
    (∀ d, d ∈ (broadcast clients msg (some sender) ms).map Prod.fst ↔
      d ∈ clients.map Prod.fst ∧ d ≠ sender) ∧
    (∀ w, w ∈ broadcast clients msg (some sender) ms →
      w.2 = create_frame msg OPCODE_TEXT true ms) := by
  refine ⟨?_, fun d => broadcast_mem clients msg sender ms d,
    fun w hw => broadcast_frames clients msg (some sender) ms w hw⟩
  intro hmem
  exact ((broadcast_mem clients msg sender ms sender).1 hmem).2 rfl

theorem claim9_broadcast_exclusion_witness :
    2 ∉ (broadcast [(1, []), (2, []), (3, [])] (asciiBytes "m") (some 2) 5).map
        Prod.fst ∧
    3 ∈ (broadcast [(1, []), (2, []), (3, [])] (asciiBytes "m") (some 2) 5).map
        Prod.fst := by
  have h := claim9_broadcast_exclusion [(1, []), (2, []), (3, [])]
    (asciiBytes "m") 2 5
  exact ⟨h.1, (h.2.1 3).2 ⟨by decide, by decide⟩⟩

/-- Claim C10: the decoder is total and in-bounds on arbitrary input —
running it with Python's checked semantics never raises — and when it
reports a frame the consumed count is between 2 and the buffer length and
the payload is exactly `consumed - header_size` bytes long. -/
theorem claim10_decoder_safety (data : List Nat) :
    parse_frameE data = .ok (parse_frame data) ∧
    (∀ op pl plen fin c, parse_frame data = .frame op pl plen fin c →
      2 ≤ c ∧ c ≤ data.length ∧ pl.length = plen ∧
      ∃ hs, declHeader data = some (hs, plen) ∧ c = hs + plen ∧
        2 ≤ hs ∧ pl.length = c - hs) := by
  refine ⟨parse_frameE_eq data, ?_⟩
  intro op pl plen fin c h
  obtain ⟨b1, b2, rest, hs, rfl, hd, hle, hc, hop, hfin, hpl⟩ :=
    parse_frame_frame_inv data op pl plen fin c h
  obtain ⟨h2hs, _⟩ := declHeader_bounds _ _ _ _ _ hd
  have hraw : (((b1 :: b2 :: rest).drop hs).take plen).length = plen := by
    simp only [List.length_take, List.length_drop, List.length_cons]
    simp only [List.length_cons] at hle
    omega
  have hpll : pl.length = plen := by
    rw [hpl]
    by_cases hm : b2 &&& 0x80 ≠ 0
    · rw [if_pos hm, maskPayload_length]
      exact hraw
    · rw [if_neg hm]
      exact hraw
  exact ⟨by omega, by omega, hpll, hs, hd, hc, h2hs, by omega⟩

theorem claim10_decoder_safety_witness :
    parse_frameE [0x81, 0x82, 0, 0, 0, 0, 104, 105]
      = .ok (parse_frame [0x81, 0x82, 0, 0, 0, 0, 104, 105]) ∧
    2 ≤ 8 ∧ (8 : Nat) ≤ ([0x81, 0x82, 0, 0, 0, 0, 104, 105] : List Nat).length ∧
    ([104, 105] : List Nat).length = 2 := by
  have h := claim10_decoder_safety [0x81, 0x82, 0, 0, 0, 0, 104, 105]
  have h2 := h.2 1 [104, 105] 2 true 8 (by decide)
  exact ⟨h.1, h2.1, h2.2.1, h2.2.2.1⟩

end WS
